import Mathlib

/-
Verification of the gradient-accumulation engine in grad.py (Grad, grad).

The module under study is a reverse-mode differentiation engine: a `Grad`
accumulator maps value-node identity (Python `id`) to an accumulated symbolic
gradient expression, and `bprop` traverses the operations of the computation
graph in reverse topological order, letting each operation deposit gradient
terms for its inputs.

The collaborating modules `core` (evaluation-mode stack, the UNCOMPUTED and
UNDEFINED sentinels, `wrap`) and `gof` (graph queries `inputs`,
`io_toposort`) are external to grad.py; they are modelled here from the
spec's contracts, and every definition taken from them says so in its doc
comment.
-/

namespace ThGrad

/-- Modelled from the spec: the evaluation modes of the process-wide mode
controller in `core` (not in src): `eval`, `build`, `build_eval`. -/
inductive Mode
  | eval
  | build
  | build_eval
  deriving DecidableEq, Repr

/-- Modelled from the spec: the process-wide evaluation-mode stack of `core`. -/
abbrev ModeStack := List Mode

/-- Modelled from the spec: `core.current_mode()` returns the mode at the top
of the stack (`none` on an empty stack). -/
def current_mode (s : ModeStack) : Option Mode := List.head? s

/-- Modelled from the spec: `core` push primitive. -/
def push_mode (m : Mode) (s : ModeStack) : ModeStack := m :: s

/-- Modelled from the spec: `core.build_mode()` pushes the `build` mode. -/
def build_mode (s : ModeStack) : ModeStack := push_mode Mode.build s

/-- Modelled from the spec: `core.pop_mode()` removes the top mode. `bprop`
only ever pops a stack it has just pushed, so the underflow path of the real
controller never arises there; on the empty stack this model returns it
unchanged. -/
def pop_mode (s : ModeStack) : ModeStack := List.tail s

/-- The payload (`.data` slot) of a value node: the `core.UNCOMPUTED`
sentinel, a concrete ndarray-like value carrying a shape and (abstractly) its
numeric content, or an object that lacks a `shape` attribute. The sentinel
itself is modelled from the spec (`core` is not in src); the three-way
distinction is exactly what `Grad.add` reads off the payload. -/
inductive Data
  | uncomputed
  | arr (shape : List Nat) (val : Int)
  | noShape
  deriving DecidableEq, Repr

/-- A value node: reference identity is modelled by an explicit `id : Nat`
(Python `id(item)`), plus the `.data` payload. -/
structure Node where
  id : Nat
  data : Data
  deriving DecidableEq, Repr

/-- A gradient term passed to `Grad.add`: either the `core.UNDEFINED`
sentinel (modelled from the spec, `core` not in src) or a value node. -/
inductive GVal
  | UNDEFINED
  | val (n : Node)
  deriving DecidableEq, Repr

/-- The errors the embedded code can raise.  `nameError` models the Python
`NameError` raised by the shape-mismatch branch of `Grad.add` (grad.py line
69 mentions the unbound names `v` and `dv`, so evaluating the message tuple
raises `NameError` before any `ValueError` is built); `shapeMismatch` is the
error that branch was evidently intended to raise (the spec's
`ShapeMismatch`, reporting both shapes) and is never produced by the code;
`missingGradient` is the dict `KeyError` of `__getitem__` (the spec's
`MissingGradient`); `unsupportedInMode` is the `NotImplementedError` of
`grad` (the spec's `UnsupportedInMode`); `opFailure` stands for an exception
escaping an operation's `update_gradient`. -/
inductive Err
  | missingShapeR
  | missingShapeDr
  | nameError
  | shapeMismatch (rShape drShape : List Nat)
  | missingGradient
  | unsupportedInMode
  | opFailure
  deriving DecidableEq, Repr

/-- The symbolic gradient expression stored in a `Grad` entry: either a
contributed node or the graph-level sum `self[r] + dr` built by `add` in
build mode. -/
inductive GExpr
  | leaf (n : Node)
  | add (a b : GExpr)
  deriving DecidableEq, Repr

/-- Denotation of a gradient expression under a valuation of the nodes, used
to state additivity of the accumulator: the graph-level `+` denotes integer
addition. -/
def GExpr.denote (v : Node → Int) : GExpr → Int
  | .leaf n => v n
  | .add a b => a.denote v + b.denote v

/-- `hasattr(data, 'shape')` of the payload. -/
def hasShape : Data → Bool
  | .arr _ _ => true
  | _ => false

/-- `data.shape` of a shape-bearing payload. -/
def shapeOf : Data → List Nat
  | .arr s _ => s
  | _ => []

/-- The `Grad` accumulator: `map` is the id-keyed dictionary of accumulated
gradient expressions, `outputs` the ordered list of seeded output nodes. -/
structure Grad where
  map : List (Nat × GExpr)
  outputs : List Node
  deriving DecidableEq, Repr

/-- The empty accumulator (`Grad()` before seeding). -/
def Grad.mk0 : Grad := ⟨[], []⟩

/-- Store under a key in the id-keyed dictionary (`self.map[id(item)] = val`). -/
def setK : List (Nat × GExpr) → Nat → GExpr → List (Nat × GExpr)
  | [], i, e => [(i, e)]
  | (j, x) :: t, i, e => if j = i then (i, e) :: t else (j, x) :: setK t i e

/-- Dictionary lookup by key. -/
def findK : List (Nat × GExpr) → Nat → Option GExpr
  | [], _ => none
  | (j, x) :: t, i => if j = i then some x else findK t i

/-- `Grad.find g i`: the entry stored under id `i`, if any. -/
def Grad.find (g : Grad) (i : Nat) : Option GExpr := findK g.map i

/-- `Grad.__contains__`: `id(item) in self.map`. -/
def Grad.contains (g : Grad) (r : Node) : Bool := (g.find r.id).isSome

/-- `Grad.__getitem__`: map item to its id and retrieve it; a missing key
raises the dict `KeyError` (the spec's `MissingGradient`). -/
def Grad.getitem (g : Grad) (r : Node) : Except Err GExpr :=
  match g.find r.id with
  | some e => .ok e
  | none => .error .missingGradient

/-- `Grad.__setitem__`: map item to its id and store internally. -/
def Grad.set (g : Grad) (r : Node) (e : GExpr) : Grad :=
  { g with map := setK g.map r.id e }

/-- The accumulation step of `Grad.add` (grad.py lines 71-75): `if r in
self: self[r] = self[r] + dr  else: self[r] = dr`. -/
def Grad.accum (g : Grad) (r : Node) (d : Node) : Grad :=
  match g.find r.id with
  | some e => g.set r (GExpr.add e (GExpr.leaf d))
  | none => g.set r (GExpr.leaf d)

/-- `Grad.add` (grad.py lines 40-75): skip an `UNDEFINED` contribution;
skip the shape checks when either payload is `UNCOMPUTED`; otherwise demand
shape-bearing payloads and, on a shape mismatch, raise — the raise evaluates
the unbound names `v`/`dv`, so what actually escapes is a `NameError`
(`Err.nameError`), not an error carrying the two shapes.  Then accumulate
additively. -/
def Grad.add (g : Grad) (r : Node) (dr : GVal) : Except Err Grad :=
  match dr with
  | .UNDEFINED => .ok g
  | .val d =>
    if r.data = Data.uncomputed || d.data = Data.uncomputed then
      .ok (g.accum r d)
    else if !(hasShape r.data) then
      .error .missingShapeR
    else if !(hasShape d.data) then
      .error .missingShapeDr
    else if shapeOf r.data ≠ shapeOf d.data then
      .error .nameError
    else
      .ok (g.accum r d)

/-- `Grad.add_output`: `self.add(r, dr)` then `self.outputs.append(r)` (the
append only happens when `add` did not raise). -/
def Grad.add_output (g : Grad) (r : Node) (dr : GVal) : Except Err Grad :=
  (g.add r dr).map (fun g1 => { g1 with outputs := g1.outputs ++ [r] })

/-- The loop of `Grad.__init__`: apply `add_output` to each (key, value)
pair in turn, stopping at the first raised error. -/
def initLoop (g : Grad) : List (Node × GVal) → Except Err Grad
  | [] => .ok g
  | p :: t =>
    match g.add_output p.1 p.2 with
    | .ok g1 => initLoop g1 t
    | .error e => .error e

/-- `Grad.__init__(dct)`: start from the empty accumulator and apply
`add_output` to each (key, value) pair. -/
def Grad.init (pairs : List (Node × GVal)) : Except Err Grad :=
  initLoop Grad.mk0 pairs

/-- A sequence of `Grad.add` calls (a python for-loop over contributions),
stopping at the first raised error. -/
def addList (g : Grad) : List (Node × GVal) → Except Err Grad
  | [] => .ok g
  | p :: t =>
    match g.add p.1 p.2 with
    | .ok g1 => addList g1 t
    | .error e => .error e

/-- `Grad.__call__(item)`: return `self[item]`, and if the current mode is
`build_eval` call `.compute()` on it first.  The returned Bool records
whether computation was forced (the `rval.compute()` call happened). -/
def Grad.call (g : Grad) (s : ModeStack) (item : Node) : Except Err (GExpr × Bool) :=
  match g.getitem item with
  | .error e => .error e
  | .ok rval =>
    if current_mode s = some Mode.build_eval then .ok (rval, true) else .ok (rval, false)

/-- Modelled from the spec: an Operation Node (spec section 3 / 6).  It is an
external collaborator of grad.py: declared input and output value nodes, and
a gradient-contribution method that, given the accumulated gradients of the
outputs, produces one gradient term per input (or raises).  `update_gradient`
below turns this into the callback `op.update_gradient(self)` of `bprop`:
read the output gradients through `self[...]`, then deposit each term through
`self.add`. -/
structure Op where
  inputs : List Node
  outputs : List Node
  gradTerms : List GExpr → Except Err (List GVal)

/-- Modelled from the spec: the `op.update_gradient(self)` callback contract
(grad.py docstring of `bprop`; spec sections 4.3 and 6): read the gradients
accumulated for the operation's outputs via `Grad.__getitem__`, compute the
per-input terms, and `Grad.add` each term to the corresponding input. -/
def Op.update_gradient (op : Op) (g : Grad) : Except Err Grad :=
  match List.mapM g.getitem op.outputs with
  | .error e => .error e
  | .ok gs =>
    match op.gradTerms gs with
    | .error e => .error e
    | .ok ts => addList g (op.inputs.zip ts)

/-- The traversal loop of `bprop`: `for op in order: op.update_gradient(self)`,
stopping at the first raised error. -/
def runOps (g : Grad) : List Op → Except Err Grad
  | [] => .ok g
  | op :: rest =>
    match op.update_gradient g with
    | .ok g1 => runOps g1 rest
    | .error e => .error e

/-- `A producesInput B`: some declared output of `A` is a declared input of
`B`, i.e. `B` consumes a value `A` produces, so `B` contributes gradient
terms destined for an output of `A`. -/
def producesInput (A B : Op) : Prop := ∃ o, o ∈ A.outputs ∧ o ∈ B.inputs

instance (A B : Op) : Decidable (producesInput A B) :=
  inferInstanceAs (Decidable (∃ o, o ∈ A.outputs ∧ o ∈ B.inputs))

/-- Modelled from the spec: the forward topological-order contract of
`gof.graph.io_toposort` (spec section 4.2): every operation appears after all
operations that produce its inputs.  Equivalently, whenever `X` occurs before
`Y` in the list, `Y` does not produce an input of `X`; and (since an
operation cannot appear after itself, i.e. the graph is a DAG) no operation
in the list produces one of its own inputs. -/
def TopoOk (order : List Op) : Prop :=
  List.Pairwise (fun a b => ¬ producesInput b a) order ∧
    ∀ op ∈ order, ¬ producesInput op op

instance (order : List Op) : Decidable (TopoOk order) :=
  inferInstanceAs (Decidable (_ ∧ _))

/-- `Grad.bprop` (grad.py lines 77-103): push the `build` mode, walk the
toposorted operations in reverse (`__reversed__`), invoking each operation's
`update_gradient`, and pop the mode stack in a `finally` block, i.e. on the
error path as well.  The operation order produced by
`gof.graph.io_toposort(inputs, outputs)` is passed in as `order` (the graph
query service is external to grad.py; its contract is `TopoOk`). -/
def Grad.bprop (g : Grad) (s : ModeStack) (order : List Op) :
    Except Err Grad × ModeStack :=
  let s1 := build_mode s
  match runOps g order.reverse with
  | .ok g1 => (.ok g1, pop_mode s1)
  | .error e => (.error e, pop_mode s1)

/-- Modelled from the spec: `core.wrap` turns a raw numeric value into a
value node with a concrete scalar payload (shape `()`); used for the cost
gradient seed `wrap(cost_grad)`. -/
def wrap (x : Int) : Node := ⟨0, Data.arr [] x⟩

/-- The seeding step of `grad`: `Grad({cost: core.wrap(cost_grad)})`. -/
def seedGrad (cost : Node) (cost_grad : Int) : Except Err Grad :=
  Grad.init [(cost, GVal.val (wrap cost_grad))]

/-- What `grad` returns: the whole accumulator (when `param is None`) or the
expression `rval(param)` together with the flag recording whether
`.compute()` was forced on it. -/
inductive GradRet
  | acc (g : Grad)
  | expr (e : GExpr) (computed : Bool)
  deriving Repr

/-- The return step of `grad` after the backward pass: the accumulator
itself when `param is None`, otherwise `rval(param)` — the result of
`Grad.__call__` on the accumulator. -/
def gradFinish (s : ModeStack) (g1 : Grad) (param : Option Node) :
    Except Err GradRet × ModeStack :=
  match param with
  | none => (.ok (.acc g1), s)
  | some p =>
    match g1.call s p with
    | .error e => (.error e, s)
    | .ok pr => (.ok (.expr pr.1 pr.2), s)

/-- The `grad` entry point (grad.py lines 116-135): raise
`NotImplementedError` in `eval` mode; otherwise seed a fresh `Grad` with
`(cost, wrap(cost_grad))`, run `bprop`, and return the accumulator itself or
`rval(param)`.  The mode stack is threaded explicitly; the toposort order of
the graph under `cost` is passed in as `order`. -/
def gradFn (s : ModeStack) (cost : Node) (param : Option Node) (cost_grad : Int)
    (order : List Op) : Except Err GradRet × ModeStack :=
  if current_mode s = some Mode.eval then
    (.error .unsupportedInMode, s)
  else
    match seedGrad cost cost_grad with
    | .error e => (.error e, s)
    | .ok g0 =>
      match g0.bprop s order with
      | (.error e, s1) => (.error e, s1)
      | (.ok g1, s1) => gradFinish s1 g1 param

/-! Basic lemmas about the id-keyed dictionary. -/

theorem findK_setK_self (m : List (Nat × GExpr)) (i : Nat) (e : GExpr) :
    findK (setK m i e) i = some e := by
  induction m with
  | nil => simp [setK, findK]
  | cons p t ih =>
    by_cases h : p.1 = i
    · simp [setK, h, findK]
    · simp [setK, h, findK, ih]

theorem findK_setK_ne (m : List (Nat × GExpr)) (i j : Nat) (e : GExpr)
    (hne : j ≠ i) : findK (setK m i e) j = findK m j := by
  induction m with
  | nil => simp [setK, findK, Ne.symm hne]
  | cons p t ih =>
    obtain ⟨a, b⟩ := p
    by_cases h : a = i
    · subst h
      simp [setK, findK, Ne.symm hne]
    · simp [setK, h, findK, ih]

theorem Grad.find_set_self (g : Grad) (r : Node) (e : GExpr) :
    (g.set r e).find r.id = some e := findK_setK_self g.map r.id e

theorem Grad.find_set_ne (g : Grad) (r : Node) (e : GExpr) (j : Nat)
    (hne : j ≠ r.id) : (g.set r e).find j = g.find j :=
  findK_setK_ne g.map r.id j e hne

/-! Sample nodes, accumulators and operations used by the concrete
witness theorems. -/

/-- A sample node with an uncomputed payload. -/
def nA : Node := ⟨1, Data.uncomputed⟩

/-- A sample node with a concrete payload of shape (2,). -/
def rMis : Node := ⟨2, Data.arr [2] 0⟩

/-- A sample node with a concrete payload of shape (3,). -/
def dMis : Node := ⟨3, Data.arr [3] 0⟩

/-- A sample accumulator holding one entry, for node id 3. -/
def gW : Grad := ⟨[(3, GExpr.leaf nA)], []⟩

/-- A sample operation whose gradient-contribution method raises. -/
def raisingOp : Op := ⟨[nA], [], fun _ => .error .opFailure⟩

/-- Even when an operation's contribution method raises partway through the
traversal, the `finally` block of `bprop` still pops the pushed mode: at this
concrete input the traversal errors yet the stack comes back unchanged. -/
theorem bprop_error_path_example :
    (Grad.mk0.bprop [Mode.build_eval] [raisingOp]).1 = .error .opFailure ∧
      (Grad.mk0.bprop [Mode.build_eval] [raisingOp]).2 = [Mode.build_eval] :=
  ⟨rfl, rfl⟩

/-- C8: contributing `UNDEFINED` via `add` returns the accumulator
unchanged — no entry is created, no existing entry is touched, no shape
check runs and no error is raised, for every node `r` and every accumulator
state. -/
theorem add_undefined_noop (g : Grad) (r : Node) :
    g.add r GVal.UNDEFINED = .ok g := rfl

/-- C9: `Grad.__getitem__` raises the missing-gradient error (the dict
`KeyError`, the spec's `MissingGradient`) exactly on nodes with no
accumulated entry, and returns the stored accumulated expression on nodes
with one. -/
theorem getitem_total_spec (g : Grad) (n : Node) :
    (g.find n.id = none → g.getitem n = .error Err.missingGradient) ∧
      (∀ e, g.find n.id = some e → g.getitem n = .ok e) := by
  constructor
  · intro h
    simp [Grad.getitem, h]
  · intro e h
    simp [Grad.getitem, h]

/-- Witness for C9 at concrete inputs: the empty accumulator has no entry
for `nA`, so lookup fails with the missing-gradient error; `gW` stores an
entry under id 3, so lookup of a node with id 3 returns it. -/
theorem getitem_total_spec_witness :
    Grad.mk0.getitem nA = .error Err.missingGradient ∧
      gW.getitem dMis = .ok (GExpr.leaf nA) :=
  ⟨(getitem_total_spec Grad.mk0 nA).1 rfl,
    (getitem_total_spec gW dMis).2 (GExpr.leaf nA) rfl⟩

/-- C10: `add_output(n, UNDEFINED)` appends `n` to the roots list and creates
no mapping entry, so a node explicitly seeded with `UNDEFINED` is a
registered traversal root whose lookup still fails with the missing-gradient
error. -/
theorem add_output_undefined_root_only (g : Grad) (n : Node) :
    g.add_output n GVal.UNDEFINED = .ok ⟨g.map, g.outputs ++ [n]⟩ ∧
      (g.find n.id = none →
        (⟨g.map, g.outputs ++ [n]⟩ : Grad).getitem n = .error Err.missingGradient) := by
  constructor
  · rfl
  · intro h
    simp [Grad.getitem, Grad.find] at h ⊢
    simp [h]

/-- Witness for C10 at a concrete input: seeding the empty accumulator with
`(nA, UNDEFINED)` yields a root list `[nA]` and an empty map, and lookup of
`nA` fails. -/
theorem add_output_undefined_root_only_witness :
    Grad.mk0.add_output nA GVal.UNDEFINED = .ok ⟨[], [nA]⟩ ∧
      (⟨[], [nA]⟩ : Grad).getitem nA = .error Err.missingGradient :=
  ⟨(add_output_undefined_root_only Grad.mk0 nA).1,
    (add_output_undefined_root_only Grad.mk0 nA).2 rfl⟩

/-- C4 (code bug): on a shape mismatch with both payloads computed, the
`raise` statement of `Grad.add` evaluates the unbound names `v` and
`dv.datashape` (grad.py line 69), so the caller observes a `NameError`, not
the intended shape-mismatch error carrying the two shapes.  At the concrete
input below (target shape (2,), contribution shape (3,)) the code yields
`Err.nameError`, which is not `Err.shapeMismatch [2] [3]`. -/
theorem add_shape_mismatch_raises_nameError :
    Grad.mk0.add rMis (GVal.val dMis) = .error Err.nameError ∧
      Err.nameError ≠ Err.shapeMismatch [2] [3] :=
  ⟨rfl, by decide⟩

/-- C3: `bprop` pushes the `build` mode on entry and pops in a `finally`
block, so on every exit path — for every accumulator, every mode stack and
every operation order, including orders whose contribution methods raise —
the mode stack after the call equals the stack before it, and in particular
`current_mode` is restored exactly. -/
theorem bprop_restores_mode (g : Grad) (s : ModeStack) (order : List Op) :
    (g.bprop s order).2 = s ∧
      current_mode (g.bprop s order).2 = current_mode s := by
  have h : (g.bprop s order).2 = s := by
    unfold Grad.bprop
    cases runOps g order.reverse <;> rfl
  exact ⟨h, by rw [h]⟩

/-- C5: calling `grad` while the ambient mode is `eval` fails with the
unsupported-in-mode error (`NotImplementedError`), before any accumulator is
constructed, any entry is added or any traversal happens: the result is
exactly the error paired with the untouched mode stack. -/
theorem grad_eval_mode_rejected (s : ModeStack) (cost : Node) (param : Option Node)
    (cg : Int) (order : List Op) (h : current_mode s = some Mode.eval) :
    gradFn s cost param cg order = (.error Err.unsupportedInMode, s) := by
  unfold gradFn
  rw [if_pos h]

/-- Witness for C5 at a concrete input: with the stack `[eval]` the call
fails with the unsupported-in-mode error and the stack is untouched. -/
theorem grad_eval_mode_rejected_witness :
    gradFn [Mode.eval] nA none 1 [] = (.error Err.unsupportedInMode, [Mode.eval]) :=
  grad_eval_mode_rejected [Mode.eval] nA none 1 [] rfl

/-! Additivity of the accumulator (C2). -/

/-- The guard of `Grad.add` succeeds on the pair (r, dr): either payload is
`UNCOMPUTED` (the checks are skipped), or both payloads are shape-bearing
with equal shapes. -/
def shapeOk (r d : Node) : Bool :=
  r.data = Data.uncomputed || d.data = Data.uncomputed ||
    (hasShape r.data && hasShape d.data && decide (shapeOf r.data = shapeOf d.data))

/-- When the shape rules pass, `add` does not raise: it returns the
additively-updated accumulator. -/
theorem add_ok_of_shapeOk (g : Grad) (r d : Node) (h : shapeOk r d = true) :
    g.add r (GVal.val d) = .ok (g.accum r d) := by
  cases hr : r.data <;> cases hd : d.data <;>
    simp_all [Grad.add, shapeOk, hasShape, shapeOf]

/-- A first contribution initializes the entry with the contributed node. -/
theorem accum_find_none (g : Grad) (r d : Node) (h : g.find r.id = none) :
    g.accum r d = g.set r (GExpr.leaf d) := by
  unfold Grad.accum
  rw [h]

/-- A later contribution wraps the existing accumulated expression in a
graph-level sum with the new term: it adds, it does not replace. -/
theorem accum_find_some (g : Grad) (r d : Node) (E : GExpr)
    (h : g.find r.id = some E) :
    g.accum r d = g.set r (GExpr.add E (GExpr.leaf d)) := by
  unfold Grad.accum
  rw [h]

/-- Successive contributions of the nodes `ds` to the node `r`, each through
`Grad.add` (the `for` loop a caller performs when depositing k terms). -/
def foldAdds (g : Grad) (r : Node) : List Node → Except Err Grad
  | [] => .ok g
  | d :: t =>
    match g.add r (GVal.val d) with
    | .ok g1 => foldAdds g1 r t
    | .error e => .error e

/-- Evolution of an existing entry under successive passing contributions:
the entry becomes the left-nested graph-level sum of the old entry with each
contributed term in order. -/
theorem foldAdds_entry (r : Node) (ds : List Node) :
    ∀ (g : Grad) (E : GExpr), g.find r.id = some E →
      (∀ d ∈ ds, shapeOk r d = true) →
      ∃ gf, foldAdds g r ds = .ok gf ∧
        gf.find r.id =
          some (List.foldl (fun e x => GExpr.add e (GExpr.leaf x)) E ds) := by
  induction ds with
  | nil =>
    intro g E hE _
    exact ⟨g, rfl, by simpa using hE⟩
  | cons d t ih =>
    intro g E hE hok
    have hadd := add_ok_of_shapeOk g r d (hok d (by simp))
    have hacc := accum_find_some g r d E hE
    have hfind : (g.accum r d).find r.id = some (GExpr.add E (GExpr.leaf d)) := by
      rw [hacc]
      exact Grad.find_set_self g r _
    obtain ⟨gf, h1, h2⟩ :=
      ih (g.accum r d) (GExpr.add E (GExpr.leaf d)) hfind
        (fun x hx => hok x (by simp [hx]))
    refine ⟨gf, ?_, ?_⟩
    · simpa [foldAdds, hadd] using h1
    · simpa using h2

/-- Denotation of a left-nested accumulated sum: the denoted value of the
folded expression is the denoted base plus the sum of the contributed
terms. -/
theorem denote_foldl (v : Node → Int) (ds : List Node) :
    ∀ E : GExpr,
      (List.foldl (fun e x => GExpr.add e (GExpr.leaf x)) E ds).denote v =
        E.denote v + (ds.map v).sum := by
  induction ds with
  | nil => intro E; simp
  | cons d t ih =>
    intro E
    simp only [List.foldl, List.map, List.sum_cons]
    rw [ih]
    simp [GExpr.denote]
    ring

/-- Depositing a nonempty list of passing contributions into a node with no
prior entry succeeds and accumulates an expression denoting the sum of the
contributed terms. -/
theorem foldAdds_fresh (g0 : Grad) (r : Node) (d0 : Node) (ds : List Node)
    (h0 : g0.find r.id = none)
    (hok : ∀ x ∈ d0 :: ds, shapeOk r x = true) :
    ∃ gf E, foldAdds g0 r (d0 :: ds) = .ok gf ∧ gf.find r.id = some E ∧
      ∀ v : Node → Int, E.denote v = ((d0 :: ds).map v).sum := by
  have hadd := add_ok_of_shapeOk g0 r d0 (hok d0 (by simp))
  have hacc := accum_find_none g0 r d0 h0
  have hfind : (g0.accum r d0).find r.id = some (GExpr.leaf d0) := by
    rw [hacc]
    exact Grad.find_set_self g0 r _
  obtain ⟨gf, h1, h2⟩ :=
    foldAdds_entry r ds (g0.accum r d0) (GExpr.leaf d0) hfind
      (fun x hx => hok x (by simp [hx]))
  refine ⟨gf, _, ?_, h2, ?_⟩
  · simpa [foldAdds, hadd] using h1
  · intro v
    rw [denote_foldl]
    simp [GExpr.denote]

/-- C2: depositing k successive contributions g1..gk into a node `r` with no
prior entry (each contribution a node, not `UNDEFINED`, passing the shape
rules) succeeds, and the accumulated entry denotes exactly the sum of the
contributed terms; the same holds for any permutation of the contributions,
with the same denoted sum.  Moreover the first contribution initializes the
entry and every later contribution wraps the existing accumulated expression
in a sum with the new term (it adds, it does not replace). -/
theorem add_additivity (g0 : Grad) (r : Node) (d0 : Node) (ds : List Node)
    (h0 : g0.find r.id = none)
    (hok : ∀ x ∈ d0 :: ds, shapeOk r x = true) :
    (∃ gf E, foldAdds g0 r (d0 :: ds) = .ok gf ∧ gf.find r.id = some E ∧
      ∀ v : Node → Int, E.denote v = ((d0 :: ds).map v).sum) ∧
    (∀ l, List.Perm l (d0 :: ds) →
      ∃ gf E, foldAdds g0 r l = .ok gf ∧ gf.find r.id = some E ∧
        ∀ v : Node → Int, E.denote v = ((d0 :: ds).map v).sum) ∧
    g0.add r (GVal.val d0) = .ok (g0.set r (GExpr.leaf d0)) ∧
    (∀ (g : Grad) (E : GExpr) (x : Node), g.find r.id = some E →
      shapeOk r x = true →
      g.add r (GVal.val x) = .ok (g.set r (GExpr.add E (GExpr.leaf x)))) := by
  refine ⟨foldAdds_fresh g0 r d0 ds h0 hok, ?_, ?_, ?_⟩
  · intro l hperm
    cases l with
    | nil => exact absurd hperm.symm (by simp)
    | cons d1 t1 =>
      obtain ⟨gf, E, hf, hE, hden⟩ :=
        foldAdds_fresh g0 r d1 t1 h0
          (fun x hx => hok x (hperm.mem_iff.mp hx))
      refine ⟨gf, E, hf, hE, fun v => ?_⟩
      rw [hden v]
      exact (hperm.map v).sum_eq
  · rw [add_ok_of_shapeOk g0 r d0 (hok d0 (by simp)), accum_find_none g0 r d0 h0]
  · intro g E x hE hx
    rw [add_ok_of_shapeOk g r x hx, accum_find_some g r x E hE]

/-- A sample target node with an uncomputed payload (shape checks skipped). -/
def rC2 : Node := ⟨9, Data.uncomputed⟩

/-- A sample contribution node with a scalar payload of value 2. -/
def wA : Node := ⟨11, Data.arr [] 2⟩

/-- A sample contribution node with a scalar payload of value 3. -/
def wB : Node := ⟨12, Data.arr [] 3⟩

/-- Witness for C2 at concrete inputs: the empty accumulator has no entry
for `rC2`, both contributions pass the shape rules, and the theorem yields
the accumulated sum. -/
theorem add_additivity_witness :
    Grad.mk0.find rC2.id = none ∧
      ((∃ gf E, foldAdds Grad.mk0 rC2 [wA, wB] = .ok gf ∧
          gf.find rC2.id = some E ∧
          ∀ v : Node → Int, E.denote v = ([wA, wB].map v).sum) ∧
        (∀ l, List.Perm l [wA, wB] →
          ∃ gf E, foldAdds Grad.mk0 rC2 l = .ok gf ∧ gf.find rC2.id = some E ∧
            ∀ v : Node → Int, E.denote v = ([wA, wB].map v).sum) ∧
        Grad.mk0.add rC2 (GVal.val wA) =
          .ok (Grad.mk0.set rC2 (GExpr.leaf wA)) ∧
        (∀ (g : Grad) (E : GExpr) (x : Node), g.find rC2.id = some E →
          shapeOk rC2 x = true →
          g.add rC2 (GVal.val x) =
            .ok (g.set rC2 (GExpr.add E (GExpr.leaf x))))) :=
  ⟨rfl, add_additivity Grad.mk0 rC2 wA [wB] rfl (by decide)⟩

/-! Topological correctness of the reverse traversal (C1). -/

theorem runOps_append (l1 l2 : List Op) :
    ∀ g : Grad, runOps g (l1 ++ l2) =
      (runOps g l1).bind (fun g1 => runOps g1 l2) := by
  induction l1 with
  | nil => intro g; rfl
  | cons op t ih =>
    intro g
    cases h : op.update_gradient g with
    | ok g1 => simp [runOps, h, ih g1, Except.bind]
    | error e => simp [runOps, h, Except.bind]

theorem runOps_cons (A : Op) (l : List Op) (g : Grad) :
    runOps g (A :: l) =
      (A.update_gradient g).bind (fun g2 => runOps g2 l) := by
  cases h : A.update_gradient g with
  | ok g2 => simp [runOps, h, Except.bind]
  | error e => simp [runOps, h, Except.bind]

theorem bprop_fst (g : Grad) (s : ModeStack) (order : List Op) :
    (g.bprop s order).1 = runOps g order.reverse := by
  unfold Grad.bprop
  cases runOps g order.reverse <;> rfl

/-- C1: under the forward topological-order contract on the operation list,
whenever the reverse traversal of `bprop` reaches an operation `A` (the
reversed order splits as `l1 ++ A :: l2`), every operation `B` of the
traversal that consumes an output of `A` — i.e. whose contribution is
destined for one of `A`'s declared outputs — lies in the already-visited
prefix `l1`, and `bprop` invokes `A.update_gradient` exactly on the state
obtained after running that entire prefix: the contributions to `A`'s
outputs are all deposited before `A`'s contribution method runs. -/
theorem bprop_topological_correctness
    (order : List Op) (hT : TopoOk order)
    (l1 l2 : List Op) (A : Op) (hsplit : order.reverse = l1 ++ A :: l2)
    (B : Op) (hB : B ∈ order) (hc : producesInput A B) :
    B ∈ l1 ∧
      ∀ (g : Grad) (s : ModeStack),
        (Grad.bprop g s order).1 =
          (runOps g l1).bind (fun g1 =>
            (A.update_gradient g1).bind (fun g2 => runOps g2 l2)) := by
  have h0 : order = (l1 ++ A :: l2).reverse := by
    rw [← hsplit, List.reverse_reverse]
  have hP : List.Pairwise (fun a b => ¬ producesInput a b) (l1 ++ A :: l2) := by
    have := hT.1
    rw [h0, List.pairwise_reverse] at this
    exact this
  have hAmem : A ∈ order := by
    rw [h0, List.mem_reverse]
    exact List.mem_append_right l1 (List.mem_cons_self A l2)
  have hBmem2 : B ∈ l1 ++ A :: l2 := by
    rw [h0, List.mem_reverse] at hB
    exact hB
  have hBl1 : B ∈ l1 := by
    rcases List.mem_append.mp hBmem2 with h | h
    · exact h
    · rcases List.mem_cons.mp h with h | h
      · exact absurd (h ▸ hc) (hT.2 A hAmem)
      · exfalso
        have hcross := (List.pairwise_append.mp hP).2.1
        exact (List.pairwise_cons.mp hcross).1 B h hc
  refine ⟨hBl1, fun g s => ?_⟩
  rw [bprop_fst, hsplit, runOps_append]
  cases runOps g l1 with
  | ok g1 => simp [Except.bind, runOps_cons]
  | error e => simp [Except.bind]

/-- A sample operation producing the node `wA` from no inputs. -/
def opProducer : Op := ⟨[], [wA], fun _ => .ok []⟩

/-- A sample operation consuming the node `wA`. -/
def opConsumer : Op := ⟨[wA], [], fun _ => .ok []⟩

/-- Witness for C1 at a concrete input: in the two-operation graph where
`opProducer` produces `wA` and `opConsumer` consumes it, the forward order
`[opProducer, opConsumer]` satisfies the contract, its reversal splits as
`[opConsumer] ++ opProducer :: []`, and the consumer sits in the prefix
visited before the producer is invoked. -/
theorem bprop_topological_correctness_witness :
    opConsumer ∈ [opConsumer] ∧
      (Grad.mk0.bprop [] [opProducer, opConsumer]).1 =
        (runOps Grad.mk0 [opConsumer]).bind (fun g1 =>
          (opProducer.update_gradient g1).bind (fun g2 => runOps g2 [])) := by
  have h := bprop_topological_correctness [opProducer, opConsumer]
    (by decide)
    [opConsumer] [] opProducer rfl opConsumer
    (List.mem_cons_of_mem opProducer (List.mem_cons_self opConsumer []))
    ⟨wA, by simp [opProducer], by simp [opConsumer]⟩
  exact ⟨h.1, h.2 Grad.mk0 []⟩

/-! Frame lemmas: the traversal only writes entries for operation inputs,
so seeded entries of nodes no operation consumes survive unchanged.  Used
for C6 and C7. -/

theorem add_ok_elim (g : Grad) (r : Node) (dr : GVal) (g' : Grad)
    (h : g.add r dr = .ok g') :
    g' = g ∨ ∃ d, dr = GVal.val d ∧ g' = g.accum r d := by
  cases dr with
  | UNDEFINED =>
    left
    have h2 : Except.ok (ε := Err) g = .ok g' := h
    exact (Except.ok.inj h2).symm
  | val d =>
    right
    refine ⟨d, rfl, ?_⟩
    simp only [Grad.add] at h
    split at h
    · exact (Except.ok.inj h).symm
    · split at h
      · exact absurd h (by simp)
      · split at h
        · exact absurd h (by simp)
        · split at h
          · exact absurd h (by simp)
          · exact (Except.ok.inj h).symm

theorem accum_find_ne (g : Grad) (r d : Node) (j : Nat) (hj : j ≠ r.id) :
    (g.accum r d).find j = g.find j := by
  cases h : g.find r.id with
  | none =>
    rw [accum_find_none g r d h]
    exact Grad.find_set_ne g r _ j hj
  | some E =>
    rw [accum_find_some g r d E h]
    exact Grad.find_set_ne g r _ j hj

theorem add_find_frame (g : Grad) (r : Node) (dr : GVal) (g' : Grad) (j : Nat)
    (h : g.add r dr = .ok g') (hj : j ≠ r.id) : g'.find j = g.find j := by
  rcases add_ok_elim g r dr g' h with h1 | ⟨d, _, h2⟩
  · rw [h1]
  · rw [h2]
    exact accum_find_ne g r d j hj

theorem addList_find_frame (l : List (Node × GVal)) :
    ∀ (g g' : Grad) (j : Nat), addList g l = .ok g' →
      (∀ p ∈ l, j ≠ p.1.id) → g'.find j = g.find j := by
  induction l with
  | nil =>
    intro g g' j h _
    have h2 : Except.ok (ε := Err) g = .ok g' := h
    rw [← Except.ok.inj h2]
  | cons p t ih =>
    intro g g' j h hj
    cases ha : g.add p.1 p.2 with
    | error e => simp [addList, ha] at h
    | ok g1 =>
      have h2 : addList g1 t = .ok g' := by simpa [addList, ha] using h
      rw [ih g1 g' j h2 (fun q hq => hj q (by simp [hq]))]
      exact add_find_frame g p.1 p.2 g1 j ha (hj p (by simp))

theorem update_gradient_find_frame (op : Op) (g g' : Grad) (j : Nat)
    (h : op.update_gradient g = .ok g')
    (hj : ∀ n ∈ op.inputs, j ≠ n.id) : g'.find j = g.find j := by
  unfold Op.update_gradient at h
  split at h
  · exact absurd h (by simp)
  · split at h
    · exact absurd h (by simp)
    · exact addList_find_frame _ g g' j h
        (fun p hp => hj p.1 (List.of_mem_zip hp).1)

theorem runOps_find_frame (l : List Op) :
    ∀ (g g' : Grad) (j : Nat), runOps g l = .ok g' →
      (∀ op ∈ l, ∀ n ∈ op.inputs, j ≠ n.id) → g'.find j = g.find j := by
  induction l with
  | nil =>
    intro g g' j h _
    have h2 : Except.ok (ε := Err) g = .ok g' := h
    rw [← Except.ok.inj h2]
  | cons op t ih =>
    intro g g' j h hj
    cases hu : op.update_gradient g with
    | error e => simp [runOps, hu] at h
    | ok g1 =>
      have h2 : runOps g1 t = .ok g' := by simpa [runOps, hu] using h
      rw [ih g1 g' j h2 (fun q hq n hn => hj q (by simp [hq]) n hn)]
      exact update_gradient_find_frame op g g1 j hu (hj op (by simp))

/-- Seeding with a passing pair produces the one-entry accumulator with the
seeded node as its sole root. -/
theorem seedGrad_ok (cost : Node) (cg : Int) (h : shapeOk cost (wrap cg) = true) :
    seedGrad cost cg = .ok ⟨[(cost.id, GExpr.leaf (wrap cg))], [cost]⟩ := by
  have hadd := add_ok_of_shapeOk Grad.mk0 cost (wrap cg) h
  have hout : Grad.add_output Grad.mk0 cost (GVal.val (wrap cg)) =
      .ok ⟨[(cost.id, GExpr.leaf (wrap cg))], [cost]⟩ := by
    unfold Grad.add_output
    rw [hadd]
    rfl
  simp [seedGrad, Grad.init, initLoop, hout]

/-- When the mode gate passes, the seeding succeeds and the traversal
succeeds, `grad` reduces to the return step on the traversed accumulator. -/
theorem gradFn_ok (s : ModeStack) (cost : Node) (param : Option Node) (cg : Int)
    (order : List Op) (g0 g1 : Grad)
    (hmode : current_mode s ≠ some Mode.eval)
    (hseed : seedGrad cost cg = .ok g0)
    (hrun : runOps g0 order.reverse = .ok g1) :
    gradFn s cost param cg order = gradFinish s g1 param := by
  unfold gradFn
  rw [if_neg hmode, hseed]
  show (match g0.bprop s order with
        | (.error e, s1) => (.error e, s1)
        | (.ok g2, s1) => gradFinish s1 g2 param) = gradFinish s g1 param
  have hb : g0.bprop s order = (.ok g1, s) := by
    unfold Grad.bprop
    rw [hrun]
    rfl
  rw [hb]


/-- C6: with the default cost gradient, `grad(cost)` seeds the accumulator
with `(cost, wrap(1))`; since no operation of the traversal consumes `cost`
(its gradient entries target operation inputs, and in a DAG `cost` is not an
input of any operation of its own ancestor cone), the accumulated gradient
of `cost` with respect to itself stays the seeded identity `wrap(1)`, and
`grad(cost, cost)` returns exactly that expression. -/
theorem grad_self_gradient_identity (s : ModeStack) (cost : Node) (order : List Op)
    (g1 : Grad)
    (hmode : current_mode s ≠ some Mode.eval)
    (hshape : shapeOk cost (wrap 1) = true)
    (hnocons : ∀ op ∈ order, ∀ n ∈ op.inputs, cost.id ≠ n.id)
    (hrun : (seedGrad cost 1).bind (fun g0 => runOps g0 order.reverse) = .ok g1) :
    g1.find cost.id = some (GExpr.leaf (wrap 1)) ∧
      ∃ c, gradFn s cost (some cost) 1 order =
        (.ok (GradRet.expr (GExpr.leaf (wrap 1)) c), s) := by
  have hseed := seedGrad_ok cost 1 hshape
  rw [hseed] at hrun
  have hrun2 : runOps (⟨[(cost.id, GExpr.leaf (wrap 1))], [cost]⟩ : Grad)
      order.reverse = .ok g1 := hrun
  have hfind1 : g1.find cost.id = some (GExpr.leaf (wrap 1)) := by
    rw [runOps_find_frame order.reverse _ g1 cost.id hrun2
      (fun op hop n hn => hnocons op (List.mem_reverse.mp hop) n hn)]
    simp [Grad.find, findK]
  have hget : g1.getitem cost = .ok (GExpr.leaf (wrap 1)) := by
    simp [Grad.getitem, hfind1]
  have hfn := gradFn_ok s cost (some cost) 1 order _ g1 hmode hseed hrun2
  by_cases hbe : current_mode s = some Mode.build_eval
  · exact ⟨hfind1, true, by simp [hfn, gradFinish, Grad.call, hget, hbe]⟩
  · exact ⟨hfind1, false, by simp [hfn, gradFinish, Grad.call, hget, hbe]⟩

/-- A sample cost node with an uncomputed payload. -/
def costN : Node := ⟨4, Data.uncomputed⟩

/-- The accumulator obtained by seeding `costN` with `wrap 1`. -/
def gSeeded : Grad := ⟨[(4, GExpr.leaf (wrap 1))], [costN]⟩

/-- Witness for C6 at a concrete input: in `build` mode with an empty
operation order, `grad(costN, costN)` returns the seeded identity. -/
theorem grad_self_gradient_identity_witness :
    gSeeded.find costN.id = some (GExpr.leaf (wrap 1)) ∧
      ∃ c, gradFn [Mode.build] costN (some costN) 1 [] =
        (.ok (GradRet.expr (GExpr.leaf (wrap 1)) c), [Mode.build]) :=
  grad_self_gradient_identity [Mode.build] costN [] gSeeded (by decide) (by decide)
    (by simp) rfl

/-- C7: when the mode gate passes and seeding and traversal succeed,
`grad(cost)` with `param` omitted returns the `Grad` accumulator itself
(after the backward pass); with `param` given it returns exactly the result
of `Grad.__call__(param)` on that accumulator; and `__call__` looks up
`param`'s accumulated entry and forces computation on it if and only if the
current evaluation mode is `build_eval` (in every other mode the expression
comes back unevaluated). -/
theorem grad_returns_accumulator_or_lookup (s : ModeStack) (cost : Node) (cg : Int)
    (order : List Op) (g0 g1 : Grad)
    (hmode : current_mode s ≠ some Mode.eval)
    (hseed : seedGrad cost cg = .ok g0)
    (hrun : runOps g0 order.reverse = .ok g1) :
    gradFn s cost none cg order = (.ok (GradRet.acc g1), s) ∧
      (∀ p : Node, gradFn s cost (some p) cg order =
        (match g1.call s p with
          | .error e => (.error e, s)
          | .ok pr => (.ok (GradRet.expr pr.1 pr.2), s))) ∧
      (∀ (p : Node) (e : GExpr) (c : Bool), g1.call s p = .ok (e, c) →
        g1.getitem p = .ok e ∧
          (c = true ↔ current_mode s = some Mode.build_eval)) := by
  refine ⟨?_, ?_, ?_⟩
  · rw [gradFn_ok s cost none cg order g0 g1 hmode hseed hrun]
    rfl
  · intro p
    rw [gradFn_ok s cost (some p) cg order g0 g1 hmode hseed hrun]
    rfl
  · intro p e c h
    unfold Grad.call at h
    cases hg : g1.getitem p with
    | error e2 =>
      rw [hg] at h
      exact absurd h (by simp)
    | ok rval =>
      rw [hg] at h
      by_cases hbe : current_mode s = some Mode.build_eval
      · have h2 : rval = e ∧ true = c := by
          have h3 : Except.ok (ε := Err) (rval, true) = .ok (e, c) := by
            simpa [hbe] using h
          simpa using h3
        obtain ⟨he, hc⟩ := h2
        subst he
        subst hc
        exact ⟨rfl, by simp [hbe]⟩
      · have h2 : rval = e ∧ false = c := by
          have h3 : Except.ok (ε := Err) (rval, false) = .ok (e, c) := by
            simpa [hbe] using h
          simpa using h3
        obtain ⟨he, hc⟩ := h2
        subst he
        subst hc
        exact ⟨rfl, by simp [hbe]⟩

/-- Witness for C7 at a concrete input: in `build` mode with the empty
order, `grad(costN)` returns the seeded accumulator and `grad(costN, p)`
returns exactly what `__call__` produces. -/
theorem grad_returns_accumulator_or_lookup_witness :
    gradFn [Mode.build] costN none 1 [] =
        (.ok (GradRet.acc gSeeded), [Mode.build]) ∧
      (∀ p : Node, gradFn [Mode.build] costN (some p) 1 [] =
        (match gSeeded.call [Mode.build] p with
          | .error e => (.error e, [Mode.build])
          | .ok pr => (.ok (GradRet.expr pr.1 pr.2), [Mode.build]))) ∧
      (∀ (p : Node) (e : GExpr) (c : Bool),
        gSeeded.call [Mode.build] p = .ok (e, c) →
          gSeeded.getitem p = .ok e ∧
            (c = true ↔ current_mode [Mode.build] = some Mode.build_eval)) :=
  grad_returns_accumulator_or_lookup [Mode.build] costN 1 [] gSeeded gSeeded
    (by decide) rfl rfl

end ThGrad
